import Mathlib

/-!
Verification of the AI Muzon result-aggregation pipeline.

This file gives a shallow embedding, in Lean 4, of the core pipeline of the
repository: the content-safety filter, the ranking comparator, the
request-level cache with in-flight de-duplication, the per-scope seen-set
de-duplication, the sliding month-window arithmetic, and the category
classifier's "Top Most Views" bucket.  JavaScript values are modelled as
follows: strings are Lean `String`s, nullable/optional fields are `Option`,
ISO-8601 timestamps are modelled either by their epoch-millisecond value
(an `Int`, order-isomorphic to the timestamp order) or, where calendar
arithmetic matters, by the normalized proleptic-Gregorian tuple
(year, month, day, ms-of-day) that `Date.prototype.toISOString` prints and
parsing recovers.  Ambient effects (the wall clock, environment variables,
the network) are passed as explicit parameters.
-/

namespace Aimuzon

/-! ## JavaScript string primitives -/

/-- `startsWithCL n h` is true when the character list `n` is an initial
segment of `h`; the building block for JS `String.prototype.includes`. -/
def startsWithCL : List Char → List Char → Bool
  | [], _ => true
  | _ :: _, [] => false
  | a :: as, b :: bs => a == b && startsWithCL as bs

/-- `containsSubCL n h` is true when `n` occurs as a contiguous substring of
`h`; models JS `hay.includes(needle)` on the character level. -/
def containsSubCL (needle : List Char) : List Char → Bool
  | [] => needle.isEmpty
  | b :: bs => startsWithCL needle (b :: bs) || containsSubCL needle bs

/-- JS `hay.includes(needle)`. -/
def jsIncludes (hay needle : String) : Bool :=
  containsSubCL needle.data hay.data

/-- Value of the leading run of decimal digits of a character list, or `0`
when there is none; helper for `jsParseIntOr0`. -/
def leadingNatVal : List Char → Nat
  | c :: cs => if c.isDigit then (c.toNat - '0'.toNat) * 10 ^ (cs.takeWhile Char.isDigit).length + leadingNatVal cs else 0
  | [] => 0

/-- Models the JS idiom `parseInt(s, 10) || 0`: skip leading whitespace,
read an optional sign and a leading run of decimal digits; any failure
(`NaN`) collapses to `0` through `|| 0`. -/
def jsParseIntOr0 (s : String) : Int :=
  let cs := s.data.dropWhile Char.isWhitespace
  match cs with
  | '-' :: rest => -(leadingNatVal rest : Int)
  | '+' :: rest => (leadingNatVal rest : Int)
  | _ => (leadingNatVal cs : Int)

/-- `true` when every character of the list is a decimal digit. -/
def allDigits (cs : List Char) : Bool :=
  cs.all Char.isDigit

/-- Numeric value of a digit list (most significant first). -/
def digitsVal : List Char → Nat
  | [] => 0
  | c :: cs => digitsVal cs + (c.toNat - '0'.toNat) * 10 ^ cs.length

/-- Models the JS `Number(s)` conversion on the string shapes the upstream
API supplies for counters (`viewCount`, `subscriberCount`): the empty or
all-whitespace string converts to `0`, a non-empty string of decimal digits
converts to its value, and anything else is `NaN`, modelled as `none`.
(The full JS numeric grammar - floats, hex, exponents - does not occur in
this data and is out of scope.) -/
def jsNumOpt (s : String) : Option Int :=
  let cs := s.data.dropWhile Char.isWhitespace
  let cs := (cs.reverse.dropWhile Char.isWhitespace).reverse
  if cs.isEmpty then some 0
  else if allDigits cs then some (digitsVal cs : Int)
  else none

/-- Models the JS idiom `s || d` on an optional string: `null`/`undefined`
and the empty string are falsy and give the default. -/
def jsOrStr : Option String → String → String
  | none, d => d
  | some s, d => if s = "" then d else s

/-- JS `s.toLowerCase()`, character by character (the blocklist and
keyword data is ASCII, where `Char.toLower` agrees with JS). -/
def jsToLower (s : String) : String :=
  String.mk (s.data.map Char.toLower)

/-! ## Data model

The record types mirror the repository's `types.ts` and the raw YouTube API
shapes used by `api.ts` / `server/index.js`.  Nested optional paths such as
`det?.contentDetails?.contentRating?.ytRating` are flattened to a single
optional field. -/

/-- Snippet of a raw search result (`YTSearchItem['snippet']`).
`publishedAt` is the epoch-millisecond value of the ISO timestamp. -/
structure Snippet where
  channelId : Option String := none
  title : Option String := none
  channelTitle : Option String := none
  publishedAt : Option Int := none
  description : Option String := none
deriving DecidableEq, Repr

/-- Enrichment record for one video (`YTVideoDetails`), with the nested
`contentDetails` / `statistics` / `status` / `snippet` paths flattened. -/
structure VideoDetails where
  duration : Option String := none
  ytRating : Option String := none
  viewCount : Option String := none
  madeForKids : Option Bool := none
  tags : Option (List String) := none
  categoryId : Option String := none
deriving DecidableEq, Repr

/-- Channel enrichment record (`YTChannel`), flattening
`statistics.subscriberCount`. -/
structure YTChannel where
  subscriberCount : Option String := none
deriving DecidableEq, Repr

/-- One raw search result (`YTSearchItem`). -/
structure YTSearchItem where
  videoId : Option String := none
  snippet : Option Snippet := none
deriving DecidableEq, Repr

/-- The app-level `VideoItem` of `types.ts`.  `publishedAt` is the
epoch-millisecond value of the ISO timestamp string. -/
structure VideoItem where
  videoId : String
  title : Option String := none
  channelTitle : Option String := none
  publishedAt : Option Int := none
  duration : Option String := none
  viewCount : Option String := none
  description : Option String := none
  tags : List String := []
  videoCategoryId : Option String := none
  madeForKids : Bool := false
deriving DecidableEq, Repr

/-! ## Safety filter (`api.ts` lines 229-244 and 416-441,
`server/index.js` lines 207-231) -/

/-- The fixed content blocklist, copied verbatim from `CONTENT_BLOCKLIST`
in `api.ts` (the server-side `BLOCKLIST` is identical). -/
def CONTENT_BLOCKLIST : List String :=
  [ "sanwariya", "pajama", "naked", "sex",
    "sexual", "nsfw", "xxx", "porn", "erotic", "18+", "x-rated", "nude", "nudity", "fetish", "bdsm",
    "violent", "violence", "murder", "kill", "killing", "blood", "gore", "weapon", "gun", "shoot", "shooting", "stab", "stabbing", "war", "fight", "assault", "suicide",
    "explicit", "swear", "profanity", "fuck", "shit", "bitch", "asshole", "cunt", "dick", "bastard",
    "age restricted" ]

/-- `isTitleBlocked` from `api.ts`: the lower-cased title contains some
blocklist term as a substring. -/
def isTitleBlocked (title : Option String) : Bool :=
  let t := jsToLower (title.getD "")
  CONTENT_BLOCKLIST.any (fun w => jsIncludes t w)

/-- `isKidFriendly` from `fetchYouTubeDirect` in `api.ts`.  The ambient
`getMaxAllowedAge()` (an environment read, default 14) is passed as the
`maxAge` parameter.  Checks, in source order: the upstream age-restricted
rating (for audiences below 18), then blocklist hits in title/description,
then blocklist hits in tags. -/
def isKidFriendly (maxAge : Int) (sn : Option Snippet) (det : Option VideoDetails) : Bool :=
  let title := jsToLower ((sn.bind Snippet.title).getD "")
  let desc := jsToLower ((sn.bind Snippet.description).getD "")
  let tags := ((det.bind VideoDetails.tags).getD []).map jsToLower
  let rating := det.bind VideoDetails.ytRating
  if maxAge < 18 && rating == some "ytAgeRestricted" then false
  else if CONTENT_BLOCKLIST.any (fun k => jsIncludes title k || jsIncludes desc k) then false
  else if !tags.isEmpty && CONTENT_BLOCKLIST.any (fun k => tags.any (fun t => jsIncludes t k)) then false
  else true

/-- The filtering step of `fetchYouTubeDirect`:
`items.filter(i => isKidFriendly(i.snippet, detailsMap.get(i.id.videoId)))`,
with the details map modelled as a lookup function. -/
def filteredItems (maxAge : Int) (dmap : Option String → Option VideoDetails)
    (items : List YTSearchItem) : List YTSearchItem :=
  items.filter (fun i => isKidFriendly maxAge i.snippet (dmap i.videoId))

/-- `isBlocked` from `server/index.js` (lines 215-224): the same policy as
`isKidFriendly` with the boolean inverted; the ambient `MAX_ALLOWED_AGE`
environment value (default 14) is the `maxAge` parameter.  On this path a
missing details record is replaced by the empty object
(`detailsMap.get(vid) || {}`), so `det` is a plain record. -/
def isBlocked (maxAge : Int) (sn : Option Snippet) (det : VideoDetails) : Bool :=
  let title := jsToLower ((sn.bind Snippet.title).getD "")
  let desc := jsToLower ((sn.bind Snippet.description).getD "")
  let tags := (det.tags.getD []).map jsToLower
  let rating := det.ytRating
  if maxAge < 18 && rating == some "ytAgeRestricted" then true
  else if CONTENT_BLOCKLIST.any (fun k => jsIncludes title k || jsIncludes desc k) then true
  else if !tags.isEmpty && CONTENT_BLOCKLIST.any (fun k => tags.any (fun t => jsIncludes t k)) then true
  else false

/-- The server-side filtering step:
`items.filter(i => !isBlocked(i.snippet, detailsMap.get(i.id.videoId) || {}))`. -/
def filteredItemsServer (maxAge : Int) (dmap : Option String → Option VideoDetails)
    (items : List YTSearchItem) : List YTSearchItem :=
  items.filter (fun i => !isBlocked maxAge i.snippet ((dmap i.videoId).getD {}))

/-- C1: For every list of video candidates passed through the safety filter
with `maxAllowedAge` below 18 (default 14) - on the direct-fetch path
(`isKidFriendly`) or the proxy path (`isBlocked`) - every item in the
filtered output has no blocklist term occurring as a case-insensitive
substring of its title, its description, or any of its tags (the blocklist
terms are lower-case, and the filter compares them against the lower-cased
fields), and no item carries the upstream age-restricted content rating
(`ytAgeRestricted`). -/
theorem spec_C1 (maxAge : Int) (dmap : Option String → Option VideoDetails)
    (items : List YTSearchItem) (hAge : maxAge < 18) :
    (∀ i ∈ filteredItems maxAge dmap items,
      (dmap i.videoId).bind VideoDetails.ytRating ≠ some "ytAgeRestricted" ∧
      ∀ k ∈ CONTENT_BLOCKLIST,
        jsIncludes (jsToLower ((i.snippet.bind Snippet.title).getD "")) k = false ∧
        jsIncludes (jsToLower ((i.snippet.bind Snippet.description).getD "")) k = false ∧
        ∀ t ∈ ((dmap i.videoId).bind VideoDetails.tags).getD [],
          jsIncludes (jsToLower t) k = false) ∧
    (∀ i ∈ filteredItemsServer maxAge dmap items,
      ((dmap i.videoId).getD {}).ytRating ≠ some "ytAgeRestricted" ∧
      ∀ k ∈ CONTENT_BLOCKLIST,
        jsIncludes (jsToLower ((i.snippet.bind Snippet.title).getD "")) k = false ∧
        jsIncludes (jsToLower ((i.snippet.bind Snippet.description).getD "")) k = false ∧
        ∀ t ∈ ((dmap i.videoId).getD {}).tags.getD [],
          jsIncludes (jsToLower t) k = false) := by
  constructor
  · intro i hi
    rw [filteredItems, List.mem_filter] at hi
    have h := hi.2
    simp only [isKidFriendly] at h
    split at h
    · exact absurd h (by simp)
    · rename_i h1
      split at h
      · exact absurd h (by simp)
      · rename_i h2
        split at h
        · exact absurd h (by simp)
        · rename_i h3
          simp only [Bool.and_eq_true, decide_eq_true_eq, beq_iff_eq, not_and] at h1
          simp only [List.any_eq_true, Bool.or_eq_true, not_exists, not_and, not_or,
            Bool.not_eq_true] at h2
          simp only [Bool.and_eq_true, Bool.not_eq_eq_eq_not, Bool.not_true,
            List.isEmpty_eq_false, List.any_eq_true, not_and, not_exists, ne_eq,
            Bool.not_eq_true] at h3
          refine ⟨fun hr => h1 hAge hr, fun k hk => ⟨(h2 k hk).1, (h2 k hk).2, ?_⟩⟩
          intro t ht
          by_cases hemp : ((dmap i.videoId).bind VideoDetails.tags).getD [] = []
          · rw [hemp] at ht
            exact absurd ht (List.not_mem_nil t)
          · have hmem : jsToLower t ∈
                (((dmap i.videoId).bind VideoDetails.tags).getD []).map jsToLower :=
              List.mem_map_of_mem jsToLower ht
            have h3' := h3 (by simpa using hemp) k hk
            exact h3' (jsToLower t) hmem
  · intro i hi
    rw [filteredItemsServer, List.mem_filter] at hi
    have h := hi.2
    rw [Bool.not_eq_true'] at h
    simp only [isBlocked] at h
    split at h
    · exact absurd h (by simp)
    · rename_i h1
      split at h
      · exact absurd h (by simp)
      · rename_i h2
        split at h
        · exact absurd h (by simp)
        · rename_i h3
          simp only [Bool.and_eq_true, decide_eq_true_eq, beq_iff_eq, not_and] at h1
          simp only [List.any_eq_true, Bool.or_eq_true, not_exists, not_and, not_or,
            Bool.not_eq_true] at h2
          simp only [Bool.and_eq_true, Bool.not_eq_eq_eq_not, Bool.not_true,
            List.isEmpty_eq_false, List.any_eq_true, not_and, not_exists, ne_eq,
            Bool.not_eq_true] at h3
          refine ⟨fun hr => h1 hAge hr, fun k hk => ⟨(h2 k hk).1, (h2 k hk).2, ?_⟩⟩
          intro t ht
          by_cases hemp : ((dmap i.videoId).getD {}).tags.getD [] = []
          · rw [hemp] at ht
            exact absurd ht (List.not_mem_nil t)
          · have hmem : jsToLower t ∈
                (((dmap i.videoId).getD {}).tags.getD []).map jsToLower :=
              List.mem_map_of_mem jsToLower ht
            have h3' := h3 (by simpa using hemp) k hk
            exact h3' (jsToLower t) hmem

/-- A benign sample candidate used to witness the safety-filter theorem. -/
def sampleItemC1 : YTSearchItem :=
  { videoId := some "vid1",
    snippet := some { title := some "Calm piano", description := some "relaxing" } }

/-- Witness for `spec_C1` at `maxAge = 14` (the default), a singleton
candidate list, and an empty details map: the hypotheses hold and the
filtered output of both paths satisfies the guarantee. -/
theorem spec_C1_witness :
    ((14 : Int) < 18 ∧ sampleItemC1 ∈ filteredItems 14 (fun _ => none) [sampleItemC1] ∧
      sampleItemC1 ∈ filteredItemsServer 14 (fun _ => none) [sampleItemC1]) ∧
    (((none : Option VideoDetails).bind VideoDetails.ytRating ≠ some "ytAgeRestricted" ∧
      ∀ k ∈ CONTENT_BLOCKLIST,
        jsIncludes (jsToLower ((sampleItemC1.snippet.bind Snippet.title).getD "")) k = false ∧
        jsIncludes (jsToLower ((sampleItemC1.snippet.bind Snippet.description).getD "")) k = false ∧
        ∀ t ∈ ((none : Option VideoDetails).bind VideoDetails.tags).getD [],
          jsIncludes (jsToLower t) k = false) ∧
    (((none : Option VideoDetails).getD {}).ytRating ≠ some "ytAgeRestricted" ∧
      ∀ k ∈ CONTENT_BLOCKLIST,
        jsIncludes (jsToLower ((sampleItemC1.snippet.bind Snippet.title).getD "")) k = false ∧
        jsIncludes (jsToLower ((sampleItemC1.snippet.bind Snippet.description).getD "")) k = false ∧
        ∀ t ∈ ((none : Option VideoDetails).getD {}).tags.getD [],
          jsIncludes (jsToLower t) k = false)) :=
  ⟨⟨by decide, by decide, by decide⟩,
    (spec_C1 14 (fun _ => none) [sampleItemC1] (by decide)).1 sampleItemC1 (by decide),
    (spec_C1 14 (fun _ => none) [sampleItemC1] (by decide)).2 sampleItemC1 (by decide)⟩

/-! ## Ranking comparator (`api.ts` lines 443-468, `server/index.js`
lines 233-255; the two copies are identical) -/

/-- `da?.status?.madeForKids ? 1 : 0`-style truthiness for the
made-for-kids flag of an item, looked up through the details map. -/
def madeForKidsOf (dmap : Option String → Option VideoDetails) (i : YTSearchItem) : Bool :=
  ((dmap i.videoId).bind VideoDetails.madeForKids).getD false

/-- `parseInt(cha?.statistics?.subscriberCount || '0', 10) || 0`: the
subscriber count of an item's channel, with missing channel data counted
as `0`. -/
def subCountOf (cmap : Option String → Option YTChannel) (i : YTSearchItem) : Int :=
  jsParseIntOr0 (jsOrStr ((cmap (i.snippet.bind Snippet.channelId)).bind YTChannel.subscriberCount) "0")

/-- `new Date(a?.snippet?.publishedAt || 0).getTime()`: the publication
timestamp in epoch milliseconds, `0` when absent. -/
def pubTimeOf (i : YTSearchItem) : Int :=
  (i.snippet.bind Snippet.publishedAt).getD 0

/-- The comparator of the `prioritized` sort: made-for-kids first, then
established channels (subscriber count at least 100000), then, when the
active order is `date`, more recent publication first, else tie. -/
def cmpPrioritized (dmap : Option String → Option VideoDetails)
    (cmap : Option String → Option YTChannel) (order : Option String)
    (a b : YTSearchItem) : Int :=
  let mka : Int := if madeForKidsOf dmap a then 1 else 0
  let mkb : Int := if madeForKidsOf dmap b then 1 else 0
  if mkb ≠ mka then mkb - mka
  else
    let vA : Int := if subCountOf cmap a ≥ 100000 then 1 else 0
    let vB : Int := if subCountOf cmap b ≥ 100000 then 1 else 0
    if vB ≠ vA then vB - vA
    else if order.getD "date" = "date" then pubTimeOf b - pubTimeOf a
    else 0

/-- `filtered.slice().sort(comparator)`: a stable sort of a copy of the
filtered list by `cmpPrioritized` (JS `Array.prototype.sort` is stable). -/
def prioritizedItems (dmap : Option String → Option VideoDetails)
    (cmap : Option String → Option YTChannel) (order : Option String)
    (filtered : List YTSearchItem) : List YTSearchItem :=
  filtered.mergeSort (fun a b => decide (cmpPrioritized dmap cmap order a b ≤ 0))

/-- Characterization of `cmpPrioritized a b ≤ 0` as a lexicographic
comparison of the two sort keys plus the recency tie-break. -/
theorem cmpPrioritized_le_iff (dmap : Option String → Option VideoDetails)
    (cmap : Option String → Option YTChannel) (order : Option String)
    (a b : YTSearchItem) :
    cmpPrioritized dmap cmap order a b ≤ 0 ↔
      ((if madeForKidsOf dmap b then (1:Int) else 0) < (if madeForKidsOf dmap a then 1 else 0) ∨
       ((if madeForKidsOf dmap b then (1:Int) else 0) = (if madeForKidsOf dmap a then 1 else 0) ∧
        ((if subCountOf cmap b ≥ 100000 then (1:Int) else 0) < (if subCountOf cmap a ≥ 100000 then 1 else 0) ∨
         ((if subCountOf cmap b ≥ 100000 then (1:Int) else 0) = (if subCountOf cmap a ≥ 100000 then 1 else 0) ∧
          (order.getD "date" = "date" → pubTimeOf b ≤ pubTimeOf a))))) := by
  by_cases hd : order.getD "date" = "date"
  · simp only [cmpPrioritized, hd, if_true, eq_self_iff_true, true_implies]
    split_ifs <;> omega
  · simp only [cmpPrioritized, hd, if_false, false_implies, and_true]
    split_ifs <;> omega

/-- The comparator order is transitive. -/
theorem cmpPrioritized_le_trans (dmap : Option String → Option VideoDetails)
    (cmap : Option String → Option YTChannel) (order : Option String)
    (a b c : YTSearchItem)
    (hab : cmpPrioritized dmap cmap order a b ≤ 0)
    (hbc : cmpPrioritized dmap cmap order b c ≤ 0) :
    cmpPrioritized dmap cmap order a c ≤ 0 := by
  rw [cmpPrioritized_le_iff] at hab hbc ⊢
  by_cases hd : order.getD "date" = "date" <;>
    simp only [hd, eq_self_iff_true, true_implies, false_implies, and_true] at hab hbc ⊢ <;>
    split_ifs at hab hbc ⊢ <;> omega

/-- The comparator order is total. -/
theorem cmpPrioritized_le_total (dmap : Option String → Option VideoDetails)
    (cmap : Option String → Option YTChannel) (order : Option String)
    (a b : YTSearchItem) :
    cmpPrioritized dmap cmap order a b ≤ 0 ∨ cmpPrioritized dmap cmap order b a ≤ 0 := by
  rw [cmpPrioritized_le_iff, cmpPrioritized_le_iff]
  by_cases hd : order.getD "date" = "date" <;>
    simp only [hd, eq_self_iff_true, true_implies, false_implies, and_true] <;>
    omega

/-- C4: every ranked output list produced from a filtered candidate list is
a permutation of the input (the source sorts a `slice()` copy; the input
list itself is untouched), and in the output: every made-for-kids candidate
precedes every non-flagged one; among candidates with equal made-for-kids
flag, every candidate whose channel subscriber count is at least 100000
(missing channel data counted as 0) precedes every candidate below that
threshold; and when the active order is `date`, among candidates tied on
both keys an earlier-published candidate never precedes a strictly
later-published one. -/
theorem spec_C4 (dmap : Option String → Option VideoDetails)
    (cmap : Option String → Option YTChannel) (order : Option String)
    (items : List YTSearchItem) :
    (prioritizedItems dmap cmap order items).Perm items ∧
    (prioritizedItems dmap cmap order items).Pairwise (fun a b =>
      (madeForKidsOf dmap b = true → madeForKidsOf dmap a = true) ∧
      (madeForKidsOf dmap a = madeForKidsOf dmap b →
        subCountOf cmap b ≥ 100000 → subCountOf cmap a ≥ 100000) ∧
      (madeForKidsOf dmap a = madeForKidsOf dmap b →
        (subCountOf cmap a ≥ 100000 ↔ subCountOf cmap b ≥ 100000) →
        order.getD "date" = "date" → pubTimeOf b ≤ pubTimeOf a)) := by
  constructor
  · exact List.mergeSort_perm items _
  · have hs := @List.sorted_mergeSort _
      (fun a b => decide (cmpPrioritized dmap cmap order a b ≤ 0))
      (fun a b c hab hbc => by
        simp only [decide_eq_true_eq] at hab hbc ⊢
        exact cmpPrioritized_le_trans dmap cmap order a b c hab hbc)
      (fun a b => by
        simp only [Bool.or_eq_true, decide_eq_true_eq]
        exact cmpPrioritized_le_total dmap cmap order a b)
      items
    refine hs.imp ?_
    intro a b hab
    simp only [decide_eq_true_eq, cmpPrioritized_le_iff] at hab
    refine ⟨?_, ?_, ?_⟩
    · intro hb
      rcases hab with h | ⟨h, _⟩ <;> cases ha : madeForKidsOf dmap a <;>
        simp [hb, ha] at h ⊢ <;> omega
    · intro hmk hb
      rcases hab with h | ⟨h, g⟩
      · rw [hmk] at h
        omega
      · rcases g with g | ⟨g, _⟩ <;> by_cases hc : subCountOf cmap a ≥ 100000 <;>
          simp [hb, hc] at g ⊢ <;> omega
    · intro hmk hsub hdate
      rcases hab with h | ⟨h, g⟩
      · rw [hmk] at h
        omega
      · rcases g with g | ⟨g, gg⟩
        · rcases hsub with ⟨h1, h2⟩
          by_cases hc : subCountOf cmap a ≥ 100000 <;>
            by_cases hcb : subCountOf cmap b ≥ 100000 <;> simp [hc, hcb] at g <;> tauto
        · exact gg hdate

/-! ## Seen-set de-duplication (`api.ts` lines 470-506, `App.tsx`) -/

/-- The per-query seen filter of `fetchYouTubeDirect`:
items whose `videoId` is falsy or already in the seen set are dropped;
survivors are added to the set as the filter walks the list.  The mutable
`Set` is threaded explicitly. -/
def directFilterSeen : List VideoItem → List String → List VideoItem × List String
  | [], seen => ([], seen)
  | v :: rest, seen =>
    if v.videoId = "" then directFilterSeen rest seen
    else if v.videoId ∈ seen then directFilterSeen rest seen
    else
      let r := directFilterSeen rest (v.videoId :: seen)
      (v :: r.1, r.2)

/-- The orchestrator-path filter
`(resp.items || []).filter(v => v && v.videoId && !globalDisplayedIdsRef.current.has(v.videoId))`. -/
def globalFilterNew (items : List VideoItem) (seen : List String) : List VideoItem :=
  items.filter (fun v => v.videoId ≠ "" && decide (v.videoId ∉ seen))

/-- `items.forEach(v => globalDisplayedIdsRef.current.add(v.videoId))`. -/
def globalAddSeen (items : List VideoItem) (seen : List String) : List String :=
  items.foldl (fun s v => v.videoId :: s) seen

/-- One incremental-load step against the orchestrator's global seen-set:
filter out already-displayed ids, then record the survivors. -/
def globalStep (batch : List VideoItem) (seen : List String) : List VideoItem × List String :=
  let fresh := globalFilterNew batch seen
  (fresh, globalAddSeen fresh seen)

/-- Run a sequence of fetched batches through a dedup step, threading the
scope's seen-set; returns the returned batches and the final seen-set. -/
def runBatches (step : List VideoItem → List String → List VideoItem × List String) :
    List (List VideoItem) → List String → List (List VideoItem) × List String
  | [], seen => ([], seen)
  | b :: bs, seen =>
    let r := step b seen
    let rest := runBatches step bs r.2
    (r.1 :: rest.1, rest.2)

/-- The successive seen-set states of a run, initial state first. -/
def seenTrace (step : List VideoItem → List String → List VideoItem × List String) :
    List (List VideoItem) → List String → List (List String)
  | [], seen => [seen]
  | b :: bs, seen => seen :: seenTrace step bs (step b seen).2

/-- Two returned batches share no `videoId`. -/
def BatchDisjoint (b1 b2 : List VideoItem) : Prop :=
  ∀ v1 ∈ b1, ∀ v2 ∈ b2, v1.videoId ≠ v2.videoId

theorem directFilterSeen_out_notin {l : List VideoItem} {s : List String} {v : VideoItem}
    (h : v ∈ (directFilterSeen l s).1) : v.videoId ∉ s := by
  induction l generalizing s with
  | nil => simp [directFilterSeen] at h
  | cons w rest ih =>
    simp only [directFilterSeen] at h
    split at h
    · exact ih h
    · split at h
      · exact ih h
      · rename_i hvid hseen
        rcases List.mem_cons.mp h with rfl | h2
        · exact hseen
        · intro hv
          exact ih h2 (List.mem_cons_of_mem _ hv)

theorem directFilterSeen_mono {l : List VideoItem} {s : List String} :
    s ⊆ (directFilterSeen l s).2 := by
  induction l generalizing s with
  | nil => simp [directFilterSeen]
  | cons w rest ih =>
    simp only [directFilterSeen]
    split
    · exact ih
    · split
      · exact ih
      · exact fun x hx => ih (List.mem_cons_of_mem _ hx)

theorem directFilterSeen_out_in {l : List VideoItem} {s : List String} {v : VideoItem}
    (h : v ∈ (directFilterSeen l s).1) : v.videoId ∈ (directFilterSeen l s).2 := by
  induction l generalizing s with
  | nil => simp [directFilterSeen] at h
  | cons w rest ih =>
    simp only [directFilterSeen] at h ⊢
    split at h
    · rename_i hw
      rw [if_pos hw]
      exact ih h
    · rename_i hw
      rw [if_neg hw]
      split at h
      · rename_i hs
        rw [if_pos hs]
        exact ih h
      · rename_i hs
        rw [if_neg hs]
        rcases List.mem_cons.mp h with rfl | h2
        · exact directFilterSeen_mono (List.mem_cons_self _ _)
        · exact ih h2

theorem globalStep_out_notin {l : List VideoItem} {s : List String} {v : VideoItem}
    (h : v ∈ (globalStep l s).1) : v.videoId ∉ s := by
  simp only [globalStep, globalFilterNew, List.mem_filter, Bool.and_eq_true,
    decide_eq_true_eq] at h
  exact h.2.2

theorem globalAddSeen_mono {l : List VideoItem} {s : List String} :
    s ⊆ globalAddSeen l s := by
  induction l generalizing s with
  | nil => simp [globalAddSeen]
  | cons w rest ih =>
    intro x hx
    exact ih (List.mem_cons_of_mem _ hx)

theorem globalStep_mono {l : List VideoItem} {s : List String} :
    s ⊆ (globalStep l s).2 :=
  globalAddSeen_mono

theorem globalAddSeen_mem {l : List VideoItem} {s : List String} {v : VideoItem}
    (h : v ∈ l) : v.videoId ∈ globalAddSeen l s := by
  induction l generalizing s with
  | nil => simp at h
  | cons w rest ih =>
    rcases List.mem_cons.mp h with rfl | h2
    · show v.videoId ∈ List.foldl _ (v.videoId :: s) rest
      exact globalAddSeen_mono (List.mem_cons_self _ _)
    · show v.videoId ∈ List.foldl _ (w.videoId :: s) rest
      exact ih h2

theorem globalStep_out_in {l : List VideoItem} {s : List String} {v : VideoItem}
    (h : v ∈ (globalStep l s).1) : v.videoId ∈ (globalStep l s).2 :=
  globalAddSeen_mem h

theorem runBatches_out_notin
    (step : List VideoItem → List String → List VideoItem × List String)
    (hNot : ∀ b s v, v ∈ (step b s).1 → v.videoId ∉ s)
    (hMono : ∀ b s, s ⊆ (step b s).2) :
    ∀ batches s, ∀ b2 ∈ (runBatches step batches s).1, ∀ v ∈ b2, v.videoId ∉ s := by
  intro batches
  induction batches with
  | nil => intro s b2 h; simp [runBatches] at h
  | cons b bs ih =>
    intro s b2 h2 v hv
    simp only [runBatches, List.mem_cons] at h2
    rcases h2 with rfl | h2
    · exact hNot b s v hv
    · intro hvs
      exact ih (step b s).2 b2 h2 v hv (hMono b s hvs)

theorem runBatches_pairwise
    (step : List VideoItem → List String → List VideoItem × List String)
    (hNot : ∀ b s v, v ∈ (step b s).1 → v.videoId ∉ s)
    (hMono : ∀ b s, s ⊆ (step b s).2)
    (hIn : ∀ b s v, v ∈ (step b s).1 → v.videoId ∈ (step b s).2) :
    ∀ batches s, List.Pairwise BatchDisjoint (runBatches step batches s).1 := by
  intro batches
  induction batches with
  | nil => intro s; simp [runBatches]
  | cons b bs ih =>
    intro s
    simp only [runBatches]
    refine List.Pairwise.cons ?_ (ih (step b s).2)
    intro b2 h2 v1 hv1 v2 hv2 heq
    have h1in : v1.videoId ∈ (step b s).2 := hIn b s v1 hv1
    have h2out : v2.videoId ∉ (step b s).2 :=
      runBatches_out_notin step hNot hMono bs (step b s).2 b2 h2 v2 hv2
    rw [heq] at h1in
    exact h2out h1in

theorem seenTrace_from_subset
    (step : List VideoItem → List String → List VideoItem × List String)
    (hMono : ∀ b s, s ⊆ (step b s).2) :
    ∀ batches s, ∀ t ∈ seenTrace step batches s, s ⊆ t := by
  intro batches
  induction batches with
  | nil =>
    intro s t ht
    simp only [seenTrace, List.mem_singleton] at ht
    exact ht ▸ fun x hx => hx
  | cons b bs ih =>
    intro s t ht
    simp only [seenTrace, List.mem_cons] at ht
    rcases ht with rfl | ht
    · exact fun x hx => hx
    · exact fun x hx => ih (step b s).2 t ht (hMono b s hx)

theorem seenTrace_pairwise
    (step : List VideoItem → List String → List VideoItem × List String)
    (hMono : ∀ b s, s ⊆ (step b s).2) :
    ∀ batches s, List.Pairwise (fun s1 s2 => s1 ⊆ s2) (seenTrace step batches s) := by
  intro batches
  induction batches with
  | nil => intro s; simp [seenTrace]
  | cons b bs ih =>
    intro s
    simp only [seenTrace]
    refine List.Pairwise.cons ?_ (ih (step b s).2)
    intro t ht
    exact fun x hx => seenTrace_from_subset step hMono bs (step b s).2 t ht (hMono b s hx)

/-- C2: for every sequence of fetched batches processed against one dedup
scope - the per-normalized-query-text seen-set of the direct-fetch path, or
the global seen-set of the orchestrator path - no `videoId` appears in more
than one returned batch of that scope, and the scope's seen-set only grows
(each later state of the session contains every earlier state) and is never
reset. -/
theorem spec_C2 (batches : List (List VideoItem)) (seen0 : List String) :
    (List.Pairwise BatchDisjoint (runBatches directFilterSeen batches seen0).1 ∧
      List.Pairwise (fun s1 s2 => s1 ⊆ s2) (seenTrace directFilterSeen batches seen0)) ∧
    (List.Pairwise BatchDisjoint (runBatches globalStep batches seen0).1 ∧
      List.Pairwise (fun s1 s2 => s1 ⊆ s2) (seenTrace globalStep batches seen0)) := by
  refine ⟨⟨?_, ?_⟩, ?_, ?_⟩
  · exact runBatches_pairwise directFilterSeen
      (fun b s v h => directFilterSeen_out_notin h)
      (fun b s => directFilterSeen_mono)
      (fun b s v h => directFilterSeen_out_in h) batches seen0
  · exact seenTrace_pairwise directFilterSeen (fun b s => directFilterSeen_mono) batches seen0
  · exact runBatches_pairwise globalStep
      (fun b s v h => globalStep_out_notin h)
      (fun b s => globalStep_mono)
      (fun b s v h => globalStep_out_in h) batches seen0
  · exact seenTrace_pairwise globalStep (fun b s => globalStep_mono) batches seen0

/-! ## Proxy-path date normalization (`server/index.js` lines 110-147)

Timestamps on this path are modelled by their epoch-millisecond values;
`parseIso` returning `null` for an unparseable string is modelled by
`none`. -/

/-- The date-normalization block of `GET /api/search`: clamp a future
`publishedBefore` to the current time, then, if both bounds are present
and inverted, move `publishedAfter` to one second before
`publishedBefore`. -/
def normalizeProxyWindow (pubAfter pubBefore : Option Int) (now : Int) :
    Option Int × Option Int :=
  let dBefore := pubBefore.map (fun b => if b > now then now else b)
  match pubAfter, dBefore with
  | some a, some b => if a ≥ b then (some (b - 1000), some b) else (some a, some b)
  | a, b => (a, b)

/-- C7: for every proxied search request with parseable `publishedAfter`
and `publishedBefore`: a future `publishedBefore` is clamped to the current
time, and if after clamping `publishedAfter ≥ publishedBefore` then
`publishedAfter` becomes exactly one second (1000 ms) before
`publishedBefore`; the normalized window always satisfies
`publishedAfter < publishedBefore` and the request is not rejected (the
normalization always yields a window, never an error). -/
theorem spec_C7 (a b now : Int) :
    ∃ a' b', normalizeProxyWindow (some a) (some b) now = (some a', some b') ∧
      a' < b' ∧
      b' = (if b > now then now else b) ∧
      (a ≥ b' → a' = b' - 1000) ∧
      (a < b' → a' = a) := by
  simp only [normalizeProxyWindow, Option.map_some']
  by_cases hb : b > now
  · simp only [if_pos hb]
    split
    · rename_i ha
      exact ⟨now - 1000, now, rfl, by omega, by simp [hb], fun _ => rfl, by omega⟩
    · rename_i ha
      exact ⟨a, now, rfl, by omega, by simp [hb], by omega, fun _ => rfl⟩
  · simp only [if_neg hb]
    split
    · rename_i ha
      exact ⟨b - 1000, b, rfl, by omega, by simp [hb], fun _ => rfl, by omega⟩
    · rename_i ha
      exact ⟨a, b, rfl, by omega, by simp [hb], by omega, fun _ => rfl⟩

/-- Witness for `spec_C7` at a concrete inverted window
(`publishedAfter` = 100, `publishedBefore` = 50, now = 40): the future
bound is clamped to 40 and `publishedAfter` becomes 40 − 1000. -/
theorem spec_C7_witness :
    ∃ a' b', normalizeProxyWindow (some 100) (some 50) 40 = (some a', some b') ∧
      a' < b' ∧
      b' = (if (50:Int) > 40 then 40 else 50) ∧
      ((100:Int) ≥ b' → a' = b' - 1000) ∧
      ((100:Int) < b' → a' = 100) :=
  spec_C7 100 50 40

/-! ## Incremental-load month-window loop (`App.tsx`:
`fetchNextMonthWindowGlobal`, `MONTH_CAP = 12`)

The network is abstracted as an oracle `resp : Nat → List VideoItem`
mapping a months-back counter value (which determines the fetched window
via `computeNextMonthWindow`) to the items the search returns for that
window. -/

/-- The `while (attempts < MONTH_CAP)` loop of
`fetchNextMonthWindowGlobal`, structured by the remaining attempt budget.
Returns the returned items, the final months-back counter for the keyword,
and the list of counter values (window offsets) actually probed. -/
def fetchLoop (resp : Nat → List VideoItem) (seen : List String) :
    Nat → Nat → List VideoItem × Nat × List Nat
  | 0, counter => ([], counter, [])
  | fuel + 1, counter =>
    let filtered := globalFilterNew (resp counter) seen
    if filtered.isEmpty then
      let r := fetchLoop resp seen fuel (counter + 1)
      (r.1, r.2.1, counter :: r.2.2)
    else
      (filtered, counter + 1, [counter])

/-- `monthsBackCounterRef.current[kw] || 1`: the resolved starting counter
(JS falsiness makes a stored `0` also resolve to `1`). -/
def startCounter : Option Nat → Nat
  | none => 1
  | some n => if n = 0 then 1 else n

/-- `fetchNextMonthWindowGlobal` for the selected keyword: resolve the
stored months-back counter, then probe up to `MONTH_CAP = 12` windows. -/
def fetchNextMonthWindowGlobal (resp : Nat → List VideoItem) (seen : List String)
    (stored : Option Nat) : List VideoItem × Nat × List Nat :=
  fetchLoop resp seen 12 (startCounter stored)

theorem fetchLoop_all_empty (resp : Nat → List VideoItem) (seen : List String) :
    ∀ fuel counter, (∀ i < fuel, globalFilterNew (resp (counter + i)) seen = []) →
      fetchLoop resp seen fuel counter =
        ([], counter + fuel, (List.range fuel).map (counter + ·)) := by
  intro fuel
  induction fuel with
  | zero => intro counter _; simp [fetchLoop]
  | succ n ih =>
    intro counter h
    have h0 : globalFilterNew (resp counter) seen = [] := by
      have := h 0 (Nat.succ_pos n)
      simpa using this
    simp only [fetchLoop, h0, List.isEmpty_nil, if_true]
    have hrec := ih (counter + 1) (fun i hi => by
      have := h (i + 1) (Nat.succ_lt_succ hi)
      rwa [show counter + (i + 1) = counter + 1 + i by omega] at this)
    simp only [hrec]
    rw [Prod.mk.injEq, Prod.mk.injEq]
    refine ⟨rfl, by omega, ?_⟩
    conv_rhs => rw [List.range_succ_eq_map]
    rw [List.map_cons, List.map_map, List.cons.injEq]
    refine ⟨by omega, ?_⟩
    apply List.map_congr_left
    intro i _
    simp only [Function.comp_apply]
    omega

theorem fetchLoop_first_success (resp : Nat → List VideoItem) (seen : List String) :
    ∀ fuel counter j, j < fuel →
      (∀ i < j, globalFilterNew (resp (counter + i)) seen = []) →
      globalFilterNew (resp (counter + j)) seen ≠ [] →
      fetchLoop resp seen fuel counter =
        (globalFilterNew (resp (counter + j)) seen, counter + j + 1,
          (List.range (j + 1)).map (counter + ·)) := by
  intro fuel
  induction fuel with
  | zero => intro counter j hj; omega
  | succ n ih =>
    intro counter j hj hempty hfull
    cases j with
    | zero =>
      have h0 : ¬(globalFilterNew (resp counter) seen).isEmpty = true := by
        simpa using hfull
      simp only [fetchLoop, if_neg h0]
      rw [Prod.mk.injEq, Prod.mk.injEq]
      refine ⟨by rw [Nat.add_zero], by omega, ?_⟩
      simp [List.range_succ]
    | succ m =>
      have h0 : globalFilterNew (resp counter) seen = [] := by
        have := hempty 0 (Nat.succ_pos m)
        simpa using this
      simp only [fetchLoop, h0, List.isEmpty_nil, if_true]
      have hrec := ih (counter + 1) m (by omega)
        (fun i hi => by
          have := hempty (i + 1) (Nat.succ_lt_succ hi)
          rwa [show counter + (i + 1) = counter + 1 + i by omega] at this)
        (by rwa [show counter + 1 + m = counter + (m + 1) by omega])
      simp only [hrec]
      rw [Prod.mk.injEq, Prod.mk.injEq]
      refine ⟨by rw [show counter + 1 + m = counter + (m + 1) by omega], by omega, ?_⟩
      conv_rhs => rw [List.range_succ_eq_map]
      rw [List.map_cons, List.map_map, List.cons.injEq]
      refine ⟨by omega, ?_⟩
      apply List.map_congr_left
      intro i _
      simp only [Function.comp_apply]
      omega

/-- C8: for every incremental-load invocation (with months-back counter
resolved from the stored value): if the next 12 consecutive month windows
for the selected keyword contain no `videoId` absent from the global
seen-set, the loop returns an empty list, the keyword's months-back counter
has advanced by exactly 12, and all 12 windows were probed; and if the
windows at offsets `0 .. j-1` are empty of new ids but offset `j`
(with `j < 12`) yields at least one new item, the loop returns exactly
those new items, sets the counter to that window's offset plus one, and
probes no window beyond offset `j`. -/
theorem spec_C8 (resp : Nat → List VideoItem) (seen : List String) (stored : Option Nat) :
    ((∀ i < 12, globalFilterNew (resp (startCounter stored + i)) seen = []) →
      fetchNextMonthWindowGlobal resp seen stored =
        ([], startCounter stored + 12, (List.range 12).map (startCounter stored + ·))) ∧
    (∀ j < 12, (∀ i < j, globalFilterNew (resp (startCounter stored + i)) seen = []) →
      globalFilterNew (resp (startCounter stored + j)) seen ≠ [] →
      fetchNextMonthWindowGlobal resp seen stored =
        (globalFilterNew (resp (startCounter stored + j)) seen,
         startCounter stored + j + 1,
         (List.range (j + 1)).map (startCounter stored + ·))) := by
  constructor
  · intro h
    exact fetchLoop_all_empty resp seen 12 (startCounter stored) h
  · intro j hj hempty hfull
    exact fetchLoop_first_success resp seen 12 (startCounter stored) j hj hempty hfull

/-- All-empty oracle: every probed window is empty. -/
def respEmpty : Nat → List VideoItem := fun _ => []

/-- Oracle with a first new item at months-back counter 3. -/
def respHit : Nat → List VideoItem :=
  fun n => if n = 3 then [{ videoId := "new1" }] else []

/-- Witness for `spec_C8`: with the all-empty oracle the loop returns `[]`
and advances the counter from 1 to 13 after probing 12 windows; with an
oracle whose first new item sits two windows out, the loop stops there and
sets the counter to that offset plus one. -/
theorem spec_C8_witness :
    ((∀ i < 12, globalFilterNew (respEmpty (startCounter none + i)) [] = []) ∧
      fetchNextMonthWindowGlobal respEmpty [] none =
        ([], startCounter none + 12, (List.range 12).map (startCounter none + ·))) ∧
    ((2 < 12 ∧ (∀ i < 2, globalFilterNew (respHit (startCounter (some 1) + i)) [] = []) ∧
        globalFilterNew (respHit (startCounter (some 1) + 2)) [] ≠ []) ∧
      fetchNextMonthWindowGlobal respHit [] (some 1) =
        (globalFilterNew (respHit (startCounter (some 1) + 2)) [],
          startCounter (some 1) + 2 + 1,
          (List.range (2 + 1)).map (startCounter (some 1) + ·))) :=
  ⟨⟨by decide, (spec_C8 respEmpty [] none).1 (by decide)⟩,
   ⟨⟨by decide, by decide, by decide⟩,
     (spec_C8 respHit [] (some 1)).2 2 (by decide) (by decide) (by decide)⟩⟩

/-! ## Sliding date windows (`api.ts` lines 158-170)

A JS `Date` produced by `toISOString`/ISO parsing is modelled by its
normalized proleptic-Gregorian tuple (year, month 0-11, day-of-month,
milliseconds within the day).  Chronological order on normalized dates is
lexicographic on that tuple.  `setMonth` follows ECMAScript `MakeDay`:
the target month index is normalized with floored division, and a
day-of-month beyond the target month's length rolls over into the
following month (for normalized inputs the overflow is at most 3 days, so
a single roll-over step is exact). -/

/-- Proleptic-Gregorian leap year (as in ECMAScript `DaysInYear`). -/
def isLeap (y : Int) : Bool :=
  (y % 4 = 0 && y % 100 ≠ 0) || y % 400 = 0

/-- Days in month `m` (0-based) of year `y`. -/
def daysInMonth (y m : Int) : Int :=
  if m = 1 then (if isLeap y then 29 else 28)
  else if m = 3 ∨ m = 5 ∨ m = 8 ∨ m = 10 then 30
  else 31

/-- A JS `Date` as printed by `toISOString`: year, month (0-11),
day-of-month (1-31), and milliseconds within the day. -/
structure JSDate where
  year : Int
  month : Int
  day : Int
  ms : Int
deriving DecidableEq, Repr

/-- The tuple is the normalized form `toISOString` prints. -/
def JSDate.Normalized (d : JSDate) : Prop :=
  0 ≤ d.month ∧ d.month < 12 ∧ 1 ≤ d.day ∧ d.day ≤ daysInMonth d.year d.month ∧
    0 ≤ d.ms ∧ d.ms < 86400000

instance (d : JSDate) : Decidable d.Normalized := by
  unfold JSDate.Normalized
  exact inferInstance

/-- Chronological order of normalized dates: lexicographic on
(year, month, day, ms). -/
def JSDate.lt (a b : JSDate) : Prop :=
  a.year < b.year ∨ (a.year = b.year ∧
    (a.month < b.month ∨ (a.month = b.month ∧
      (a.day < b.day ∨ (a.day = b.day ∧ a.ms < b.ms)))))

instance (a b : JSDate) : Decidable (JSDate.lt a b) := by
  unfold JSDate.lt
  exact inferInstance

/-- `d.setMonth(d.getMonth() - k)` on a normalized date, per ECMAScript
`MakeDay`: normalize the month index `12*year + month - k` with floored
division, keep the day-of-month and time of day, and roll an overflowing
day into the following month. -/
def setMonthSub (d : JSDate) (k : Int) : JSDate :=
  let M := 12 * d.year + d.month - k
  let my := M / 12
  let mm := M % 12
  if d.day ≤ daysInMonth my mm then ⟨my, mm, d.day, d.ms⟩
  else ⟨(M + 1) / 12, (M + 1) % 12, d.day - daysInMonth my mm, d.ms⟩

/-- A date window, both bounds ISO timestamps (`DateWindow` in `api.ts`). -/
structure DateWindow where
  publishedAfter : JSDate
  publishedBefore : JSDate
deriving DecidableEq, Repr

/-- `getNextWindowByMonths` from `api.ts`: the next window ends where the
current one starts and begins `monthsBack` months earlier. -/
def getNextWindowByMonths (current : DateWindow) (monthsBack : Int) : DateWindow :=
  { publishedAfter := setMonthSub current.publishedAfter monthsBack,
    publishedBefore := current.publishedAfter }

/-- `n`-fold application of `getNextWindowByMonths` with a fixed
`monthsBack`. -/
def iterWindows (w : DateWindow) (k : Int) : Nat → DateWindow
  | 0 => w
  | n + 1 => getNextWindowByMonths (iterWindows w k n) k

theorem daysInMonth_bounds (y m : Int) :
    28 ≤ daysInMonth y m ∧ daysInMonth y m ≤ 31 := by
  unfold daysInMonth
  split
  · split <;> omega
  · split <;> omega

theorem setMonthSub_normalized {d : JSDate} (hd : d.Normalized) (k : Int) :
    (setMonthSub d k).Normalized := by
  obtain ⟨h1, h2, h3, h4, h5, h6⟩ := hd
  have hb := daysInMonth_bounds d.year d.month
  by_cases hday : d.day ≤ daysInMonth ((12 * d.year + d.month - k) / 12)
      ((12 * d.year + d.month - k) % 12)
  · simp only [setMonthSub, if_pos hday, JSDate.Normalized]
    refine ⟨?_, ?_, h3, hday, h5, h6⟩ <;> omega
  · have hb1 := daysInMonth_bounds ((12 * d.year + d.month - k) / 12)
      ((12 * d.year + d.month - k) % 12)
    have hb2 := daysInMonth_bounds ((12 * d.year + d.month - k + 1) / 12)
      ((12 * d.year + d.month - k + 1) % 12)
    simp only [setMonthSub, if_neg hday, JSDate.Normalized]
    push_neg at hday
    refine ⟨?_, ?_, ?_, ?_, h5, h6⟩ <;> omega

theorem setMonthSub_lt {d : JSDate} (hd : d.Normalized) {k : Int} (hk : 1 ≤ k) :
    JSDate.lt (setMonthSub d k) d := by
  obtain ⟨h1, h2, h3, h4, h5, h6⟩ := hd
  have hb := daysInMonth_bounds d.year d.month
  by_cases hday : d.day ≤ daysInMonth ((12 * d.year + d.month - k) / 12)
      ((12 * d.year + d.month - k) % 12)
  · simp only [setMonthSub, if_pos hday, JSDate.lt]
    omega
  · have hbM := daysInMonth_bounds ((12 * d.year + d.month - k) / 12)
      ((12 * d.year + d.month - k) % 12)
    simp only [setMonthSub, if_neg hday, JSDate.lt]
    push_neg at hday
    omega

theorem JSDate.lt_trans {a b c : JSDate} (h1 : JSDate.lt a b) (h2 : JSDate.lt b c) :
    JSDate.lt a c := by
  unfold JSDate.lt at h1 h2 ⊢
  omega

theorem iterWindows_after_normalized (w : DateWindow) (k : Int)
    (hwa : w.publishedAfter.Normalized) :
    ∀ n, (iterWindows w k n).publishedAfter.Normalized := by
  intro n
  induction n with
  | zero => exact hwa
  | succ m ih => exact setMonthSub_normalized ih k

theorem iterWindows_after_anti (w : DateWindow) (k : Int) (hk : 1 ≤ k)
    (hwa : w.publishedAfter.Normalized) :
    ∀ i j : Nat, i < j →
      JSDate.lt (iterWindows w k j).publishedAfter (iterWindows w k i).publishedAfter := by
  intro i j hij
  induction j with
  | zero => omega
  | succ m ih =>
    have hstep : JSDate.lt (iterWindows w k (m + 1)).publishedAfter
        (iterWindows w k m).publishedAfter :=
      setMonthSub_lt (iterWindows_after_normalized w k hwa m) hk
    rcases Nat.lt_succ_iff_lt_or_eq.mp hij with h | rfl
    · exact JSDate.lt_trans hstep (ih h)
    · exact hstep

/-- C5: for every starting window whose `publishedAfter` is a normalized
date strictly before `publishedBefore`, and every `monthsBack ≥ 1`,
repeated application of `getNextWindowByMonths` produces half-open windows
`[publishedAfter, publishedBefore)` such that: each window's
`publishedBefore` equals the previous window's `publishedAfter`; every
produced window is non-empty (`publishedAfter` strictly before
`publishedBefore`); the window starts are strictly decreasing; and any two
distinct windows are non-overlapping (the later window ends at or before
the earlier window starts). -/
theorem spec_C5 (w : DateWindow) (k : Int) (hk : 1 ≤ k)
    (hwa : w.publishedAfter.Normalized)
    (hvalid : JSDate.lt w.publishedAfter w.publishedBefore) :
    (∀ n : Nat,
      (iterWindows w k (n + 1)).publishedBefore = (iterWindows w k n).publishedAfter ∧
      JSDate.lt (iterWindows w k (n + 1)).publishedAfter
        (iterWindows w k (n + 1)).publishedBefore ∧
      JSDate.lt (iterWindows w k (n + 1)).publishedAfter
        (iterWindows w k n).publishedAfter) ∧
    (∀ i j : Nat, i < j →
      JSDate.lt (iterWindows w k j).publishedBefore (iterWindows w k i).publishedAfter ∨
        (iterWindows w k j).publishedBefore = (iterWindows w k i).publishedAfter) := by
  constructor
  · intro n
    have hlt : JSDate.lt (iterWindows w k (n + 1)).publishedAfter
        (iterWindows w k n).publishedAfter :=
      setMonthSub_lt (iterWindows_after_normalized w k hwa n) hk
    exact ⟨rfl, hlt, hlt⟩
  · intro i j hij
    cases j with
    | zero => omega
    | succ m =>
      have hbefore : (iterWindows w k (m + 1)).publishedBefore =
          (iterWindows w k m).publishedAfter := rfl
      rcases Nat.lt_succ_iff_lt_or_eq.mp hij with h | rfl
      · left
        rw [hbefore]
        exact iterWindows_after_anti w k hk hwa i m h
      · right
        exact hbefore

/-- A concrete starting window (31 January 2024 to 1 June 2024, midnight)
used to witness `spec_C5`; the second iteration exercises the day-overflow
path of `setMonth` (31 November rolls over to 1 December). -/
def w0C5 : DateWindow :=
  { publishedAfter := ⟨2024, 0, 31, 0⟩, publishedBefore := ⟨2024, 5, 1, 0⟩ }

/-- Witness for `spec_C5` at the concrete window `w0C5`, `monthsBack = 1`,
window index 1 and the pair (0, 2). -/
theorem spec_C5_witness :
    ((1 : Int) ≤ 1 ∧ w0C5.publishedAfter.Normalized ∧
      JSDate.lt w0C5.publishedAfter w0C5.publishedBefore) ∧
    ((iterWindows w0C5 1 2).publishedBefore = (iterWindows w0C5 1 1).publishedAfter ∧
      JSDate.lt (iterWindows w0C5 1 2).publishedAfter
        (iterWindows w0C5 1 2).publishedBefore ∧
      JSDate.lt (iterWindows w0C5 1 2).publishedAfter
        (iterWindows w0C5 1 1).publishedAfter) ∧
    (JSDate.lt (iterWindows w0C5 1 2).publishedBefore (iterWindows w0C5 1 0).publishedAfter ∨
      (iterWindows w0C5 1 2).publishedBefore = (iterWindows w0C5 1 0).publishedAfter) :=
  ⟨⟨by decide, by decide, by decide⟩,
    (spec_C5 w0C5 1 (by decide) (by decide) (by decide)).1 1,
    (spec_C5 w0C5 1 (by decide) (by decide) (by decide)).2 0 2 (by decide)⟩

/-! ## Category classifier: the "Top Most Views" bucket
(`App.tsx`, `computeCategoriesPool` lines 130-133) -/

/-- The `topViews` comparator
`Number(b.viewCount || '0') - Number(a.viewCount || '0')`.  When either
conversion is `NaN` the subtraction is `NaN`, and ECMAScript `SortCompare`
treats a `NaN` comparator result as `+0` (a tie). -/
def cmpViews (a b : VideoItem) : Int :=
  match jsNumOpt (jsOrStr b.viewCount "0"), jsNumOpt (jsOrStr a.viewCount "0") with
  | some nb, some na => nb - na
  | _, _ => 0

/-- The "Top Most Views" bucket: the full pool, stably sorted by
`cmpViews` (`pool.slice().sort(...)`; JS `Array.prototype.sort` is
stable). -/
def topViews (pool : List VideoItem) : List VideoItem :=
  pool.mergeSort (fun a b => decide (cmpViews a b ≤ 0))

/-- The numeric view count with missing or non-numeric counts treated as
zero - the interpretation the claim asserts for every item. -/
def viewsAsZero (v : VideoItem) : Int :=
  (jsNumOpt (jsOrStr v.viewCount "0")).getD 0

/-- The claim's reading of the bucket, as a second definition following
the spec's words (for comparison with the source embedding `topViews`):
the pool stably sorted descending by `viewsAsZero`. -/
def topViewsSpec (pool : List VideoItem) : List VideoItem :=
  pool.mergeSort (fun a b => decide (viewsAsZero b ≤ viewsAsZero a))

/-- An item whose `viewCount` string is not numeric. -/
def vNonNum : VideoItem := { videoId := "a", viewCount := some "abc" }

/-- An item with five views. -/
def vFive : VideoItem := { videoId := "b", viewCount := some "5" }

unseal List.merge List.mergeSort in
/-- Counterexample to C9 as stated: in the pool `[vNonNum, vFive]` the
non-numeric item is NOT ordered as if its count were zero - the `NaN`
comparator result makes it tie with everything and stay first, although
its as-zero count (0) is strictly below its neighbour's (5); the bucket
also differs from the claim's as-zero sort. -/
theorem spec_C9_cex :
    topViews [vNonNum, vFive] = [vNonNum, vFive] ∧
    viewsAsZero vNonNum < viewsAsZero vFive ∧
    topViews [vNonNum, vFive] ≠ topViewsSpec [vNonNum, vFive] := by
  decide

/-- C9 (amended): the "Top Most Views" bucket is the full pool stably
sorted by the comparator `Number(b.viewCount || '0') − Number(a.viewCount
|| '0')`, in which a missing (or empty) `viewCount` is treated as zero but
an item with a non-numeric `viewCount` compares as a tie against every
other item (NaN comparator results collapse to 0) and therefore keeps its
relative position instead of sinking as zero.  In particular, whenever
every item's `viewCount` is missing, empty, or numeric, the bucket is the
pool sorted in descending order of numeric view count (missing counts as
zero), and it is always a permutation of the pool. -/
theorem spec_C9_amended (pool : List VideoItem)
    (hnum : ∀ v ∈ pool, (jsNumOpt (jsOrStr v.viewCount "0")).isSome = true) :
    (topViews pool).Perm pool ∧
    (topViews pool).Pairwise (fun a b => viewsAsZero b ≤ viewsAsZero a) := by
  refine ⟨List.mergeSort_perm pool _, ?_⟩
  have hcongr : topViews pool =
      pool.mergeSort (fun a b => decide (viewsAsZero b ≤ viewsAsZero a)) := by
    have hmap := List.map_mergeSort
      (r := fun a b => decide (cmpViews a b ≤ 0))
      (s := fun a b => decide (viewsAsZero b ≤ viewsAsZero a))
      (f := id) (l := pool) ?_
    · simpa using hmap
    · intro a ha b hb
      obtain ⟨na, hna⟩ := Option.isSome_iff_exists.mp (hnum a ha)
      obtain ⟨nb, hnb⟩ := Option.isSome_iff_exists.mp (hnum b hb)
      simp only [id_eq, cmpViews, viewsAsZero, hna, hnb, Option.getD_some]
      exact decide_eq_decide.mpr (by omega)
  rw [hcongr]
  have hs := @List.sorted_mergeSort _
    (fun a b : VideoItem => decide (viewsAsZero b ≤ viewsAsZero a))
    (fun a b c hab hbc => by
      simp only [decide_eq_true_eq] at hab hbc ⊢
      omega)
    (fun a b => by
      simp only [Bool.or_eq_true, decide_eq_true_eq]
      omega)
    pool
  exact hs.imp (fun h => by simpa using h)

/-- An item with no `viewCount` at all. -/
def vNoCount : VideoItem := { videoId := "c" }

/-- Witness for `spec_C9_amended` on a pool with one numeric and one
missing view count. -/
theorem spec_C9_witness :
    (∀ v ∈ [vFive, vNoCount], (jsNumOpt (jsOrStr v.viewCount "0")).isSome = true) ∧
    ((topViews [vFive, vNoCount]).Perm [vFive, vNoCount] ∧
      (topViews [vFive, vNoCount]).Pairwise (fun a b => viewsAsZero b ≤ viewsAsZero a)) :=
  ⟨by decide, spec_C9_amended [vFive, vNoCount] (by decide)⟩

/-! ## Client search wrapper: validation, cache, TTL (`api.ts` lines
172-189, 209-225, 541-624)

Each call of `fetchSearch` that runs to completion is modelled as one pure
state transition.  Ambient inputs are explicit parameters: `now` (the wall
clock), `defWin` (the window `getDefaultDateWindow()` computes from the
clock), `hasClientKey` (whether a client API key is configured, selecting
the `yt`/`proxy` mode), and `upstream`, an oracle standing for whatever
`fetchYouTubeDirect` / `fetchViaProxy` returns on this call (given the
per-query seen map, it yields the response and the updated map).
`deepClone` is the identity on pure values.  `stableStringify` of
`{q, pageToken, opts, mode}` is injective on that data, so a cache key is
modelled by the tuple itself. -/

/-- The client-side `SearchOptions` record. Timestamps are
epoch-millisecond values; a `none` date stands for a missing or
unparseable bound (`toIsoUTC` yields `undefined` for both). -/
structure SearchOptions where
  order : Option String := none
  maxResults : Option Int := none
  publishedAfter : Option Int := none
  publishedBefore : Option Int := none
  kidFriendlyOnly : Option Bool := none
  videoCategoryId : Option String := none
  videoDuration : Option String := none
  videoSyndicated : Option Bool := none
deriving DecidableEq, Repr

/-- `SearchResponse` from `types.ts`. -/
structure SearchResponse where
  q : String
  items : List VideoItem := []
  nextPageToken : Option String := none
  cached : Bool := false
deriving DecidableEq, Repr

/-- A cache key: the data `makeSearchKey` serializes
(`{q, pageToken: pageToken || '', opts, mode}`). -/
structure SearchKey where
  q : String
  pageToken : String
  opts : SearchOptions
  mode : Bool
deriving DecidableEq, Repr

/-- The session-scoped mutable state of the module: the in-memory
`searchCache`, the `sessionStorage` entries (`{at, data}` per key), and
the per-query seen map of `fetchYouTubeDirect`. -/
structure ClientState where
  searchCache : List (SearchKey × SearchResponse) := []
  sessionCache : List (SearchKey × Int × SearchResponse) := []
  seenMap : List (String × List String) := []
deriving DecidableEq, Repr

/-- `Map.get` on the in-memory cache. -/
def lookupMem : List (SearchKey × SearchResponse) → SearchKey → Option SearchResponse
  | [], _ => none
  | (k, v) :: rest, key => if k = key then some v else lookupMem rest key

/-- `sessionStorage.getItem` (parsed `{at, data}`). -/
def lookupSession : List (SearchKey × Int × SearchResponse) → SearchKey →
    Option (Int × SearchResponse)
  | [], _ => none
  | (k, v) :: rest, key => if k = key then some v else lookupSession rest key

/-- `sessionStorage.removeItem`. -/
def removeSession (l : List (SearchKey × Int × SearchResponse)) (key : SearchKey) :
    List (SearchKey × Int × SearchResponse) :=
  l.filter (fun p => decide (p.1 ≠ key))

/-- Whitespace-run collapsing for `.replace(/\s+/g, ' ')`; the flag
records whether the previous kept character was part of a whitespace
run. -/
def collapseWSAux : Bool → List Char → List Char
  | _, [] => []
  | prevWS, c :: cs =>
    if c.isWhitespace then
      if prevWS then collapseWSAux true cs
      else ' ' :: collapseWSAux true cs
    else c :: collapseWSAux false cs

/-- `(q || '').trim().replace(/\s+/g, ' ')`. -/
def sanitizeQuery (s : String) : String :=
  let trimmed := ((s.data.dropWhile Char.isWhitespace).reverse.dropWhile
    Char.isWhitespace).reverse
  String.mk (collapseWSAux false trimmed)

/-- `normalizeSearchOptions` (`api.ts` 172-189): a missing or unparseable
bound is replaced from the default window, then the ordering invariant is
enforced - an inverted window is a hard error, not corrected. -/
def normalizeSearchOptions (opts : Option SearchOptions) (defWin : Int × Int) :
    Except String SearchOptions :=
  let o := opts.getD {}
  let afterIso := o.publishedAfter.getD defWin.1
  let beforeIso := o.publishedBefore.getD defWin.2
  if afterIso < beforeIso then
    Except.ok { o with publishedAfter := some afterIso, publishedBefore := some beforeIso }
  else
    Except.error "publishedAfter must be before publishedBefore"

/-- The cache-miss tail of `fetchSearch`: issue the upstream request,
apply the defensive title-blocklist filter, store the filtered response in
both caches (stamped with the current time in `sessionStorage`), and
return it. -/
def fetchFreshModel (st : ClientState) (now : Int) (key : SearchKey)
    (upstream : List (String × List String) →
      SearchResponse × List (String × List String)) :
    Except String SearchResponse × ClientState × Bool :=
  let r := upstream st.seenMap
  let toCache := { r.1 with
    items := r.1.items.filter (fun v => v.videoId ≠ "" && !isTitleBlocked v.title) }
  (Except.ok toCache,
    { searchCache := (key, toCache) :: st.searchCache,
      sessionCache := (key, now, toCache) :: st.sessionCache,
      seenMap := r.2 },
    true)

/-- One complete sequential `fetchSearch` call (`api.ts` 541-624):
sanitize the query, normalize the options, then serve from the in-memory
cache, else from the non-expired session cache (warming the in-memory
cache), else fetch upstream.  The third component records whether an
upstream request was issued.  (The in-flight promise map is invisible to
calls that run to completion and is treated separately.) -/
def fetchSearchModel (st : ClientState) (now : Int) (q : String)
    (pageToken : Option String) (opts : Option SearchOptions)
    (hasClientKey : Bool) (defWin : Int × Int)
    (upstream : List (String × List String) →
      SearchResponse × List (String × List String)) :
    Except String SearchResponse × ClientState × Bool :=
  let qSan := sanitizeQuery q
  if qSan = "" then (Except.error "Query is empty", st, false)
  else
    match normalizeSearchOptions opts defWin with
    | Except.error e => (Except.error e, st, false)
    | Except.ok normOpts =>
      let key : SearchKey := ⟨qSan, pageToken.getD "", normOpts, hasClientKey⟩
      match lookupMem st.searchCache key with
      | some r => (Except.ok { r with cached := true }, st, false)
      | none =>
        match lookupSession st.sessionCache key with
        | some entry =>
          if now - entry.1 < 15 * 60 * 1000 then
            let res := { entry.2 with cached := true }
            (Except.ok res,
              { st with searchCache := (key, res) :: st.searchCache }, false)
          else
            fetchFreshModel { st with sessionCache := removeSession st.sessionCache key }
              now key upstream
        | none => fetchFreshModel st now key upstream

theorem lookupMem_cons_self (key : SearchKey) (v : SearchResponse)
    (rest : List (SearchKey × SearchResponse)) :
    lookupMem ((key, v) :: rest) key = some v := by
  simp [lookupMem]

/-- C6: every `fetchSearch` call whose query text is empty (or all
whitespace, so that it sanitizes to the empty string), or whose normalized
date window has `publishedAfter` not strictly before `publishedBefore`,
fails with an error before any upstream request is made and before the
caches or the seen map are modified; the invalid window is not silently
corrected on this client-side path (the call errors instead of
succeeding). -/
theorem spec_C6 (st : ClientState) (now : Int) (q : String)
    (pageToken : Option String) (opts : Option SearchOptions)
    (hasClientKey : Bool) (defWin : Int × Int)
    (upstream : List (String × List String) →
      SearchResponse × List (String × List String))
    (hbad : sanitizeQuery q = "" ∨
      ¬((opts.getD {}).publishedAfter.getD defWin.1 <
        (opts.getD {}).publishedBefore.getD defWin.2)) :
    ∃ e, fetchSearchModel st now q pageToken opts hasClientKey defWin upstream =
      (Except.error e, st, false) := by
  by_cases hq : sanitizeQuery q = ""
  · exact ⟨"Query is empty", by simp [fetchSearchModel, hq]⟩
  · rcases hbad with h | h
    · exact absurd h hq
    · refine ⟨"publishedAfter must be before publishedBefore", ?_⟩
      have hno : normalizeSearchOptions opts defWin =
          Except.error "publishedAfter must be before publishedBefore" := by
        simp only [normalizeSearchOptions, if_neg h]
      rw [fetchSearchModel, if_neg hq]
      simp [hno]

/-- C3: for every two sequential `fetchSearch` calls with identical inputs
(same query, page token, options, mode, and clock-derived default window -
hence an identical cache key) where the first call succeeds and the second
occurs within the 15-minute session TTL of the first, the second call
returns a response marked `cached = true` whose `items` equal the first
response's `items`, leaves the state unchanged, and issues no upstream
request. -/
theorem spec_C3 (st : ClientState) (now1 now2 : Int) (q : String)
    (pageToken : Option String) (opts : Option SearchOptions)
    (hasClientKey : Bool) (defWin : Int × Int)
    (up1 up2 : List (String × List String) →
      SearchResponse × List (String × List String))
    (resp1 : SearchResponse) (st1 : ClientState) (b1 : Bool)
    (h1 : fetchSearchModel st now1 q pageToken opts hasClientKey defWin up1 =
      (Except.ok resp1, st1, b1))
    (hTTL : now2 - now1 < 15 * 60 * 1000) :
    ∃ resp2, fetchSearchModel st1 now2 q pageToken opts hasClientKey defWin up2 =
      (Except.ok resp2, st1, false) ∧ resp2.cached = true ∧
        resp2.items = resp1.items := by
  by_cases hq : sanitizeQuery q = ""
  · rw [fetchSearchModel] at h1
    simp only [hq, ite_true] at h1
    exact absurd h1 (by simp)
  · rw [fetchSearchModel, if_neg hq] at h1
    cases hno : normalizeSearchOptions opts defWin with
    | error e =>
      simp only [hno] at h1
      exact absurd h1 (by simp)
    | ok normOpts =>
      simp only [hno] at h1
      cases hmem : lookupMem st.searchCache
          ⟨sanitizeQuery q, pageToken.getD "", normOpts, hasClientKey⟩ with
      | some r =>
        simp only [hmem, Prod.mk.injEq, Except.ok.injEq] at h1
        obtain ⟨hr, hst, _⟩ := h1
        subst hst
        refine ⟨resp1, ?_, ?_, rfl⟩
        · rw [fetchSearchModel, if_neg hq]
          simp [hno, hmem, hr]
        · rw [← hr]
      | none =>
        simp only [hmem] at h1
        cases hsess : lookupSession st.sessionCache
            ⟨sanitizeQuery q, pageToken.getD "", normOpts, hasClientKey⟩ with
        | some entry =>
          simp only [hsess] at h1
          by_cases httl : now1 - entry.1 < 15 * 60 * 1000
          · simp only [if_pos httl, Prod.mk.injEq, Except.ok.injEq] at h1
            obtain ⟨hr, hst, _⟩ := h1
            subst hst
            refine ⟨resp1, ?_, ?_, rfl⟩
            · rw [fetchSearchModel, if_neg hq]
              simp [hno, lookupMem_cons_self, ← hr]
            · rw [← hr]
          · simp only [if_neg httl, fetchFreshModel, Prod.mk.injEq,
              Except.ok.injEq] at h1
            obtain ⟨hr, hst, _⟩ := h1
            subst hst
            refine ⟨{ resp1 with cached := true }, ?_, rfl, rfl⟩
            rw [fetchSearchModel, if_neg hq]
            simp [hno, lookupMem_cons_self, ← hr]
        | none =>
          simp only [hsess, fetchFreshModel, Prod.mk.injEq, Except.ok.injEq] at h1
          obtain ⟨hr, hst, _⟩ := h1
          subst hst
          refine ⟨{ resp1 with cached := true }, ?_, rfl, rfl⟩
          rw [fetchSearchModel, if_neg hq]
          simp [hno, lookupMem_cons_self, ← hr]

/-- The empty session state (fresh page load). -/
def emptyCS : ClientState := {}

/-- A fixed upstream oracle returning one item and leaving the seen map
unchanged. -/
def upC3 : List (String × List String) → SearchResponse × List (String × List String) :=
  fun seen => ({ q := "ai music", items := [vFive] }, seen)

/-- The cache key of the witness call. -/
def keyC3 : SearchKey :=
  ⟨"ai music", "", { publishedAfter := some 0, publishedBefore := some 10 }, true⟩

/-- The response the witness call caches and returns. -/
def respC3 : SearchResponse := { q := "ai music", items := [vFive] }

/-- The state after the witness call. -/
def stC3 : ClientState :=
  { searchCache := [(keyC3, respC3)], sessionCache := [(keyC3, 0, respC3)], seenMap := [] }

/-- Witness for `spec_C3`: a concrete first call at time 0 misses the
cache, fetches upstream and caches; the second call at time 1 (within the
TTL) is served from memory, marked cached, with equal items and no
upstream request. -/
theorem spec_C3_witness :
    (fetchSearchModel emptyCS 0 "ai music" none none true (0, 10) upC3 =
        (Except.ok respC3, stC3, true) ∧
      (1 : Int) - 0 < 15 * 60 * 1000) ∧
    ∃ resp2, fetchSearchModel stC3 1 "ai music" none none true (0, 10) upC3 =
        (Except.ok resp2, stC3, false) ∧ resp2.cached = true ∧
          resp2.items = respC3.items :=
  ⟨⟨by rfl, by decide⟩,
    spec_C3 emptyCS 0 1 "ai music" none none true (0, 10) upC3 upC3 respC3 stC3 true
      (by rfl) (by decide)⟩

/-- Witness for `spec_C6` in both failure modes: an all-whitespace query,
and an inverted explicit date window. -/
theorem spec_C6_witness :
    ((sanitizeQuery "   " = "" ∨
        ¬(((none : Option SearchOptions).getD {}).publishedAfter.getD 0 <
          ((none : Option SearchOptions).getD {}).publishedBefore.getD 10)) ∧
      ∃ e, fetchSearchModel emptyCS 0 "   " none none true (0, 10) upC3 =
        (Except.error e, emptyCS, false)) ∧
    ((sanitizeQuery "ai" = "" ∨
        ¬(((some { publishedAfter := some 10, publishedBefore := some 5 } :
            Option SearchOptions).getD {}).publishedAfter.getD 0 <
          ((some { publishedAfter := some 10, publishedBefore := some 5 } :
            Option SearchOptions).getD {}).publishedBefore.getD 20)) ∧
      ∃ e, fetchSearchModel emptyCS 0 "ai" none
          (some { publishedAfter := some 10, publishedBefore := some 5 }) true (0, 20) upC3 =
        (Except.error e, emptyCS, false)) :=
  ⟨⟨Or.inl (by decide),
      spec_C6 emptyCS 0 "   " none none true (0, 10) upC3 (Or.inl (by decide))⟩,
    ⟨Or.inr (by decide),
      spec_C6 emptyCS 0 "ai" none
        (some { publishedAfter := some 10, publishedBefore := some 5 }) true (0, 20) upC3
        (Or.inr (by decide))⟩⟩

/-! ## In-flight request de-duplication (`api.ts` lines 128-131 and
585-623)

JS is single-threaded, so the concurrent calls of the claim interleave as
a sequence of events on the `inFlightSearch` map: a call reaching the
in-flight check either attaches to the pending operation for its key or
registers a new operation (issuing the one upstream request), and the
`finally` block settles the operation - success or failure alike -
removing the registration and delivering the settled result to every
caller holding that operation. -/

/-- The state of the in-flight machinery: the pending-operation map
(`inFlightSearch`), a counter minting operation ids, the ids that issued
an upstream request, and the settled results. -/
structure FlightState where
  inFlight : List (SearchKey × Nat) := []
  nextOp : Nat := 0
  upstreamOps : List Nat := []
  settled : List (Nat × Except String SearchResponse) := []
deriving Repr

/-- `inFlightSearch.get(cacheKey)`. -/
def lookupFlight : List (SearchKey × Nat) → SearchKey → Option Nat
  | [], _ => none
  | (k, v) :: rest, key => if k = key then some v else lookupFlight rest key

/-- The settled result a caller awaiting operation `op` receives. -/
def lookupSettled : List (Nat × Except String SearchResponse) → Nat →
    Option (Except String SearchResponse)
  | [], _ => none
  | (k, v) :: rest, op => if k = op then some v else lookupSettled rest op

/-- A `fetchSearch` call reaching the in-flight check: if an operation for
the key is pending the caller shares it (`return inFlight`), else a new
operation is registered in the map and the one upstream request is issued.
Returns the operation id the caller awaits. -/
def arriveStep (s : FlightState) (key : SearchKey) : Nat × FlightState :=
  match lookupFlight s.inFlight key with
  | some op => (op, s)
  | none =>
    (s.nextOp,
      { s with inFlight := (key, s.nextOp) :: s.inFlight,
               nextOp := s.nextOp + 1,
               upstreamOps := s.nextOp :: s.upstreamOps })

/-- The `finally` block: when the operation for `key` settles - with a
success or a failure - its registration is deleted from the map and its
result recorded for every attached caller. -/
def settleStep (s : FlightState) (key : SearchKey)
    (r : Except String SearchResponse) : FlightState :=
  match lookupFlight s.inFlight key with
  | some op =>
    { s with inFlight := s.inFlight.filter (fun p => decide (p.1 ≠ key)),
             settled := (op, r) :: s.settled }
  | none => s

/-- `n` further callers arriving for the same key; returns the operation
ids they await. -/
def arriveMany (s : FlightState) (key : SearchKey) : Nat → List Nat × FlightState
  | 0 => ([], s)
  | n + 1 =>
    let r := arriveStep s key
    let rest := arriveMany r.2 key n
    (r.1 :: rest.1, rest.2)

theorem lookupFlight_filter_ne (l : List (SearchKey × Nat)) (key : SearchKey) :
    lookupFlight (l.filter (fun p => decide (p.1 ≠ key))) key = none := by
  induction l with
  | nil => rfl
  | cons p rest ih =>
    by_cases hp : p.1 = key
    · simpa [List.filter_cons, hp] using ih
    · simpa [List.filter_cons, hp, lookupFlight] using ih

theorem arriveMany_attached (key : SearchKey) (op : Nat) :
    ∀ (n : Nat) (s : FlightState), lookupFlight s.inFlight key = some op →
      arriveMany s key n = (List.replicate n op, s) := by
  intro n
  induction n with
  | zero => intro s _; rfl
  | succ m ih =>
    intro s h
    simp only [arriveMany, arriveStep, h, ih s h, List.replicate_succ]

theorem arriveStep_register {s : FlightState} {key : SearchKey}
    (h : lookupFlight s.inFlight key = none) :
    arriveStep s key = (s.nextOp,
      { s with inFlight := (key, s.nextOp) :: s.inFlight,
               nextOp := s.nextOp + 1,
               upstreamOps := s.nextOp :: s.upstreamOps }) := by
  simp only [arriveStep, h]

/-- C10: for every state in which no operation for `key` is pending: the
first arriving call registers an operation `op0` and issues exactly one
upstream request; every one of the `n` further calls arriving while that
operation is pending attaches to the same `op0` without changing the state
(so no further upstream request is made); when the operation settles -
whether with a success or a failure `r` - every caller holding `op0`
receives the same result `r` and the registration is removed from the map;
and a call arriving after the settlement registers a fresh operation and
issues a new upstream request. -/
theorem spec_C10 (s0 : FlightState) (key : SearchKey) (n : Nat)
    (r : Except String SearchResponse)
    (h : lookupFlight s0.inFlight key = none) :
    (arriveStep s0 key).2.upstreamOps = (arriveStep s0 key).1 :: s0.upstreamOps ∧
    arriveMany (arriveStep s0 key).2 key n =
      (List.replicate n (arriveStep s0 key).1, (arriveStep s0 key).2) ∧
    lookupSettled (settleStep (arriveStep s0 key).2 key r).settled
      (arriveStep s0 key).1 = some r ∧
    lookupFlight (settleStep (arriveStep s0 key).2 key r).inFlight key = none ∧
    (arriveStep (settleStep (arriveStep s0 key).2 key r) key).1 ≠
      (arriveStep s0 key).1 ∧
    (arriveStep (settleStep (arriveStep s0 key).2 key r) key).2.upstreamOps =
      (arriveStep (settleStep (arriveStep s0 key).2 key r) key).1 ::
        (settleStep (arriveStep s0 key).2 key r).upstreamOps := by
  have hreg := arriveStep_register h
  have hpend : lookupFlight (arriveStep s0 key).2.inFlight key =
      some (arriveStep s0 key).1 := by
    simp [hreg, lookupFlight]
  have hsettle : settleStep (arriveStep s0 key).2 key r =
      { (arriveStep s0 key).2 with
          inFlight := (arriveStep s0 key).2.inFlight.filter (fun p => decide (p.1 ≠ key)),
          settled := ((arriveStep s0 key).1, r) :: (arriveStep s0 key).2.settled } := by
    simp only [settleStep, hpend]
  have hgone : lookupFlight (settleStep (arriveStep s0 key).2 key r).inFlight key = none := by
    rw [hsettle]
    exact lookupFlight_filter_ne _ key
  have hnext : (settleStep (arriveStep s0 key).2 key r).nextOp = s0.nextOp + 1 := by
    rw [hsettle, hreg]
  refine ⟨by rw [hreg], arriveMany_attached key _ n _ hpend, ?_, hgone, ?_, ?_⟩
  · rw [hsettle]
    simp [lookupSettled]
  · rw [arriveStep_register hgone]
    show (settleStep (arriveStep s0 key).2 key r).nextOp ≠ (arriveStep s0 key).1
    rw [hnext]
    rw [hreg]
    show s0.nextOp + 1 ≠ s0.nextOp
    omega
  · rw [arriveStep_register hgone]

/-- Witness for `spec_C10`: from the empty state, with two attaching
callers and a failing settlement, the whole scenario is evaluated at a
concrete key. -/
theorem spec_C10_witness :
    lookupFlight (FlightState.inFlight {}) keyC3 = none ∧
    ((arriveStep {} keyC3).2.upstreamOps = (arriveStep {} keyC3).1 :: [] ∧
      arriveMany (arriveStep {} keyC3).2 keyC3 2 =
        (List.replicate 2 (arriveStep {} keyC3).1, (arriveStep {} keyC3).2) ∧
      lookupSettled (settleStep (arriveStep {} keyC3).2 keyC3
          (Except.error "quota")).settled (arriveStep {} keyC3).1 =
        some (Except.error "quota") ∧
      lookupFlight (settleStep (arriveStep {} keyC3).2 keyC3
          (Except.error "quota")).inFlight keyC3 = none ∧
      (arriveStep (settleStep (arriveStep {} keyC3).2 keyC3 (Except.error "quota")) keyC3).1 ≠
        (arriveStep {} keyC3).1 ∧
      (arriveStep (settleStep (arriveStep {} keyC3).2 keyC3 (Except.error "quota")) keyC3).2.upstreamOps =
        (arriveStep (settleStep (arriveStep {} keyC3).2 keyC3 (Except.error "quota")) keyC3).1 ::
          (settleStep (arriveStep {} keyC3).2 keyC3 (Except.error "quota")).upstreamOps) :=
  ⟨by rfl, spec_C10 {} keyC3 2 (Except.error "quota") (by rfl)⟩

end Aimuzon
